import Mathlib

/-!
Shallow embedding of the consensus core of the go-lachesis repository
(poset epoch sealing, gas-power regulator, gossip consensus callbacks),
with theorems checking the natural-language specification against it.

Machine integers (Go `uint64`) are modelled as `Nat` with an explicit
`% 2^64` narrowing wherever the Go code narrows a `big.Int` to `uint64`
or adds two `uint64` values.  Go `time.Duration` values are nanosecond
counts.  Fallible code (`Log.Crit`, which aborts the process) is
modelled with `Except String`.
-/

/-- Narrowing of an unbounded integer to Go `uint64` (`big.Int.Uint64`
keeps the low 64 bits). -/
def u64 (n : Nat) : Nat := n % 18446744073709551616

/-- Go `time.Hour` as a nanosecond count. -/
def timeHour : Nat := 3600000000000

/-- Association-list lookup keyed by `Nat`; Go KV reads return
"absent" (`none`) as a non-error value. -/
def alookup {α : Type} : List (Nat × α) → Nat → Option α
  | [], _ => none
  | (k, v) :: rest, key => if k = key then some v else alookup rest key

/-- Removal of every entry with the given key (Go `Delete` on a table). -/
def eraseKey {α : Type} (l : List (Nat × α)) (key : Nat) : List (Nat × α) :=
  l.filter (fun p => p.1 != key)

/-- The fields of `inter.EventHeaderData` used by the consensus core.
Hashes, addresses and times are represented as `Nat`.  The self-parent
is modelled from the spec as an explicit `Option` (the first parent is
the self-parent, 0-hash if none). -/
structure EventHeaderData where
  hash : Nat
  epoch : Nat
  seq : Nat
  creator : Nat
  lamport : Nat
  medianTime : Nat
  parents : List Nat
  selfParent : Option Nat
  gasPowerUsed : Nat
  gasPowerLeft : Nat
deriving DecidableEq

/-- A `pos.Validators` table: ordered map validator address to stake,
modelled as an association list. -/
abbrev Validators : Type := List (Nat × Nat)

/-- `Validators.Get`: stake of an address, 0 when absent. -/
def Validators.get (vv : Validators) (addr : Nat) : Nat :=
  (alookup vv addr).getD 0

/-- `Validators.TotalStake`: sum of all stakes. -/
def Validators.totalStake (vv : Validators) : Nat :=
  (List.map (fun p : Nat × Nat => p.2) vv).sum

/-- Modelled from the spec: `pos.Validators.Top()` is not under `src/`;
per section 4.A it selects the validators with nonzero stake, ordered by
stake descending with address ascending as tiebreaker (the repository
test expects zero-stake validators to be dropped by `Top`). -/
def Validators.top (vv : Validators) : Validators :=
  (vv.filter (fun p => p.2 != 0)).mergeSort
    (fun a b => b.2 < a.2 || (b.2 = a.2 && a.1 ≤ b.1))

/-- `Validators.Copy` (a fresh copy with the same contents). -/
def Validators.copy (vv : Validators) : Validators := vv

/-- `lachesis.GasPowerConfig`: tuning of the gas-power regulator;
periods are nanosecond counts. -/
structure GasRules where
  totalPerH : Nat
  maxGasPowerPeriod : Nat
  startupPeriod : Nat
  minStartupGasPower : Nat
deriving DecidableEq

/-- `lachesis.DagConfig`: the subset the claims need. -/
structure DagRules where
  epochLen : Nat
  maxValidatorEventsInBlock : Nat
  gasPower : GasRules
deriving DecidableEq

/-- `poset.GenesisState` (`PrevEpoch`): snapshot taken at epoch seal. -/
structure GenesisState where
  time : Nat
  epoch : Nat
  lastAtropos : Nat
  stateHash : Nat
  lastHeaders : List (Nat × EventHeaderData)
deriving DecidableEq

/-- `poset.checkpoint`: mutated only after a successful block. -/
structure Checkpoint where
  lastBlockN : Nat
  lastAtropos : Nat
  stateHash : Nat
deriving DecidableEq

/-- The election state the claims observe: its validator table and the
frame it was last reset to. -/
structure ElectionSt where
  validators : Validators
  frame : Nat
deriving DecidableEq

/-- The vector-clock state the claims observe: its validator table and
the epoch DB it was last reset to. -/
structure VecClockSt where
  validators : Validators
  epochDb : Nat
deriving DecidableEq

/-- The poset store slice the claims touch: the epoch-scoped
`ConfirmedOn` table (absent means 0 = unset) and which epoch the
epoch-scoped DB belongs to. -/
structure PStore where
  confirmedOn : List (Nat × Nat)
  epochDbEpoch : Nat
deriving DecidableEq

/-- `inter.Block` as built by `onFrameDecided`. -/
structure BlockB where
  index : Nat
  time : Nat
  events : List EventHeaderData
  prevAtropos : Nat
deriving DecidableEq

/-- The `poset.Poset` state used by the embedded methods.
`frameTime` is modelled from the spec: `frameConsensusTime` is not
under `src/`; it reads the consensus time of a decided frame from the
stored frame info.  `applyBlock` is the external state-machine
callback. -/
structure Poset where
  validators : Validators
  nextValidators : Validators
  epochN : Nat
  prevEpoch : GenesisState
  lastDecidedFrame : Nat
  dag : DagRules
  checkpoint : Checkpoint
  store : PStore
  input : List (Nat × EventHeaderData)
  election : ElectionSt
  vecClock : VecClockSt
  frameTime : Nat → Nat
  applyBlock : Option (BlockB → Nat → Validators → Nat × Validators)

/-- `Poset.GetEventHeader` (via the poset input): header by hash. -/
def Poset.getEventHeader (p : Poset) (id : Nat) : Option EventHeaderData :=
  alookup p.input id

/-- `poset.calcValidatorGasPowerPerH` from `src/poset/gas_power.go`:
per-hour allocation, gas-power cap and startup grant of a validator.
All arithmetic is `big.Int` (unbounded) narrowed to `uint64` at the
end of each computation; division rounds toward zero. -/
def Poset.calcValidatorGasPowerPerH (p : Poset) (validator : Nat) :
    Nat × Nat × Nat :=
  let stake := p.validators.get validator
  if stake = 0 then (0, 0, 0)
  else
    let gas := p.dag.gasPower
    let perHourBig := gas.totalPerH * stake / p.validators.totalStake
    let perHour := u64 perHourBig
    let maxBig := perHourBig * gas.maxGasPowerPeriod / timeHour
    let maxGasPower := u64 maxBig
    let startupBig := perHourBig * gas.startupPeriod / timeHour
    let startup0 := u64 startupBig
    let startup :=
      if startup0 < gas.minStartupGasPower then gas.minStartupGasPower
      else startup0
    (perHour, maxGasPower, startup)

/-- `poset.Poset.CalcGasPower` from `src/poset/gas_power.go`: available
gas power for an event.  The source contains a `TODO` and allocates
gas for a constant duration of 1 (one nanosecond) instead of the real
elapsed time; this embedding reproduces that.  The source dereferences
the self-parent header unconditionally (it would panic when absent);
absence defaults to 0 here. -/
def Poset.CalcGasPower (p : Poset) (e : EventHeaderData) : Nat :=
  let t3 := p.calcValidatorGasPowerPerH e.creator
  let gasPowerPerH := t3.1
  let maxGasPower := t3.2.1
  let startup := t3.2.2
  let prevGasPowerLeft :=
    match e.selfParent with
    | some sp => ((p.getEventHeader sp).map (fun h => h.gasPowerLeft)).getD 0
    | none =>
      match alookup p.prevEpoch.lastHeaders e.creator with
      | some prevConfirmedHeader =>
        if prevConfirmedHeader.gasPowerLeft < startup then startup
        else prevConfirmedHeader.gasPowerLeft
      | none => startup
  let gasPowerAllocated := u64 (1 * gasPowerPerH / timeHour)
  let gasPower := u64 (gasPowerAllocated + prevGasPowerLeft)
  if maxGasPower < gasPower then maxGasPower else gasPower

/-- A `headersByCreator` map (creator address to event header). -/
abbrev HeadersByCreator : Type := List (Nat × EventHeaderData)

/-- Modelled from the spec: `dfsSubgraph` is not under `src/`; per
section 4.H it walks the sub-DAG reachable from a starting event
through parent links, calling the callback on each visited event and
descending into the parents of an event only when the callback returns
`true`.  The walk is fuel-bounded; the callback threads the poset
store and may abort (Go `Log.Crit` ends the process). -/
def dfsSubgraphWalk (getHeader : Nat → Option EventHeaderData)
    (cb : EventHeaderData → PStore → Except String (Bool × PStore)) :
    Nat → List Nat → List Nat → PStore → Except String PStore
  | 0, _, _, _ => .error "dfs out of fuel"
  | _ + 1, [], _, st => .ok st
  | fuel + 1, id :: stack, visited, st =>
    if visited.contains id then
      dfsSubgraphWalk getHeader cb fuel stack visited st
    else
      match getHeader id with
      | none => .error "dfs event not found"
      | some h =>
        match cb h st with
        | .error e => .error e
        | .ok (goDeeper, st2) =>
          let stack2 := if goDeeper then h.parents ++ stack else stack
          dfsSubgraphWalk getHeader cb fuel stack2 (id :: visited) st2

/-- `Poset.dfsSubgraph` applied from an event, with fuel ample for the
stored headers. -/
def Poset.dfsSubgraph (p : Poset) (start : Nat)
    (cb : EventHeaderData → PStore → Except String (Bool × PStore)) :
    Except String PStore :=
  let fuel := 2 + (p.input.map (fun q => q.2.parents.length + 1)).sum
  dfsSubgraphWalk p.getEventHeader cb fuel [start] [] p.store

/-- `poset.Poset.confirmBlockEvents` from `src/unnamed/part_000`: walks
the sub-DAG from the atropos; an already-confirmed event
(`ConfirmedOn` not 0) prunes the walk; an unconfirmed event is stamped
with `ConfirmedOn = frame` and then the source hits
`p.Log.Crit("confirmBlockEvents NOT_IMPLEMENTED yet", ...)`, which
aborts the process (discarding the stamp with it).  `blockEvents` and
`lastHeaders` start empty and are never appended to by the source. -/
def Poset.confirmBlockEvents (p : Poset) (frame : Nat) (atropos : Nat) :
    Except String (PStore × List EventHeaderData × HeadersByCreator) :=
  let cb := fun (header : EventHeaderData) (st : PStore) =>
    if (alookup st.confirmedOn header.hash).getD 0 ≠ 0 then
      Except.ok (false, st)
    else
      let _stamped := { st with confirmedOn := (header.hash, frame) :: st.confirmedOn }
      (Except.error "confirmBlockEvents NOT_IMPLEMENTED yet" :
        Except String (Bool × PStore))
  match p.dfsSubgraph atropos cb with
  | .error e => .error e
  | .ok st => .ok (st, [], [])

/-- Block frame info produced by the fare ordering. -/
structure FrameInfo where
  lastConsensusTime : Nat
deriving DecidableEq

/-- Ordering key from the spec, section 4.H: `(ConsensusTime ASC,
Lamport ASC, Hash ASC)`; the consensus time of an event is its stored
median time. -/
def eventKeyLE (a b : EventHeaderData) : Bool :=
  a.medianTime < b.medianTime ||
  (a.medianTime = b.medianTime &&
    (a.lamport < b.lamport || (a.lamport = b.lamport && a.hash ≤ b.hash)))

/-- Insertion into a list sorted by `eventKeyLE`. -/
def insertSorted (e : EventHeaderData) :
    List EventHeaderData → List EventHeaderData
  | [] => [e]
  | x :: xs => if eventKeyLE e x then e :: x :: xs else x :: insertSorted e xs

/-- Insertion sort by `eventKeyLE`. -/
def sortEvents : List EventHeaderData → List EventHeaderData
  | [] => []
  | x :: xs => insertSorted x (sortEvents xs)

/-- Modelled from the spec: `fareOrdering` is not under `src/`; per
section 4.H it sorts the confirmed events by `(ConsensusTime, Lamport,
Hash)` and the block field `LastConsensusTime` is the consensus time of
the atropos. -/
def Poset.fareOrdering (_p : Poset) (_frame atropos : Nat)
    (blockEvents : List EventHeaderData) : List EventHeaderData × FrameInfo :=
  let ordered := sortEvents blockEvents
  let t := ((blockEvents.find? (fun e => e.hash == atropos)).map
    (fun e => e.medianTime)).getD 0
  (ordered, ⟨t⟩)

/-- `poset.Poset.onFrameDecided` from `src/unnamed/part_000`: resets
the election to the next frame, moves `LastDecidedFrame`, computes the
confirmed block events, aborts when there are none (the source logs
a `Crit` with the no-events message), orders
them, and generates the block (incrementing `LastBlockN`, calling the
external `applyBlock`, updating `LastAtropos` and taking the top of
`NextValidators`). -/
def Poset.onFrameDecided (p : Poset) (frame atropos : Nat) :
    Except String (Poset × List EventHeaderData × HeadersByCreator) :=
  let p1 := { p with election := { validators := p.validators, frame := frame + 1 },
                     lastDecidedFrame := frame }
  match p1.confirmBlockEvents frame atropos with
  | .error e => .error e
  | .ok (st, blockEvents, lastHeaders) =>
    let p2 := { p1 with store := st }
    if blockEvents.length = 0 then
      .error "Frame is decided with no events"
    else
      let of := p2.fareOrdering frame atropos blockEvents
      let ordered := of.1
      let frameInfo := of.2
      let p3 := { p2 with checkpoint :=
        { p2.checkpoint with lastBlockN := p2.checkpoint.lastBlockN + 1 } }
      let block : BlockB :=
        { index := p3.checkpoint.lastBlockN
          time := frameInfo.lastConsensusTime
          events := ordered
          prevAtropos := p3.checkpoint.lastAtropos }
      let p4 :=
        match p3.applyBlock with
        | some f =>
          let r := f block p3.checkpoint.stateHash p3.nextValidators
          { p3 with checkpoint := { p3.checkpoint with stateHash := r.1 },
                    nextValidators := r.2 }
        | none => p3
      let p5 := { p4 with checkpoint := { p4.checkpoint with lastAtropos := atropos },
                          nextValidators := p4.nextValidators.top }
      .ok (p5, ordered, lastHeaders)

/-- `poset.Poset.isEpochSealed` from `src/unnamed/part_000`:
`LastDecidedFrame >= EpochLen`. -/
def Poset.isEpochSealed (p : Poset) : Bool :=
  p.dag.epochLen ≤ p.lastDecidedFrame

/-- `poset.Poset.onNewEpoch` from `src/unnamed/part_000`: snapshots
`PrevEpoch`, installs `NextValidators.Top()` via `setEpochValidators`
with `EpochN+1`, copies the new validators into `NextValidators`,
resets `LastDecidedFrame`, recreates the epoch-scoped DB for the new
epoch, and resets the vector clock and the election (to `firstFrame =
1`). -/
def Poset.onNewEpoch (p : Poset) (atropos : Nat)
    (lastHeaders : HeadersByCreator) : Poset :=
  let prevEpoch2 : GenesisState :=
    { time := p.frameTime p.lastDecidedFrame
      epoch := p.epochN
      lastAtropos := atropos
      stateHash := p.checkpoint.stateHash
      lastHeaders := lastHeaders }
  let newValidators := p.nextValidators.top
  let newEpochN := p.epochN + 1
  let p1 := { p with prevEpoch := prevEpoch2, validators := newValidators,
                     epochN := newEpochN }
  let p2 := { p1 with nextValidators := p1.validators.copy,
                      lastDecidedFrame := 0 }
  let p3 := { p2 with store := { confirmedOn := [], epochDbEpoch := newEpochN } }
  { p3 with vecClock := { validators := p3.validators, epochDb := newEpochN },
            election := { validators := p3.validators, frame := 1 } }

/-- `poset.Poset.tryToSealEpoch` from `src/unnamed/part_000`: seals
(via `onNewEpoch`) exactly when `isEpochSealed` holds, reporting
whether it sealed. -/
def Poset.tryToSealEpoch (p : Poset) (atropos : Nat)
    (lastHeaders : HeadersByCreator) : Poset × Bool :=
  if p.isEpochSealed then (p.onNewEpoch atropos lastHeaders, true)
  else (p, false)

/-- The loop of `gossip.Service.spillBlockEvents`
(`src/gossip/consensus_callbacks.go`): walking the event ids of the block
in reversed order, it looks each event up in the store (`Log.Crit`
when absent), accumulates `GasPowerUsed` into a `uint64` sum, and
stops as soon as the sum exceeds the hard limit.  It returns how many
events of the tail are kept; the store maps an event id to its
`GasPowerUsed`. -/
def spillLoop (store : List (Nat × Nat)) (limit : Nat) :
    Nat → List Nat → Except String Nat
  | _, [] => .ok 0
  | sum, id :: rest =>
    match alookup store id with
    | none => .error "Event not found"
    | some g =>
      let sum2 := u64 (sum + g)
      if limit < sum2 then .ok 0
      else (spillLoop store limit sum2 rest).map (fun k => k + 1)

/-- `gossip.Service.spillBlockEvents` from
`src/gossip/consensus_callbacks.go`: keeps the suffix of the
ordered event list found by `spillLoop`, erasing the events before it
(the source comment reads "excludes first events which exceed
BlockGasHardLimit"). -/
def spillBlockEvents (store : List (Nat × Nat)) (limit : Nat)
    (events : List Nat) : Except String (List Nat) :=
  if events.length = 0 then .ok []
  else
    (spillLoop store limit 0 events.reverse).map
      (fun keep => events.drop (events.length - keep))

/-- A gossip event (`inter.Event`): header plus transactions. -/
structure EventG where
  hash : Nat
  epoch : Nat
  creator : Nat
  parents : List Nat
  txs : List Nat
deriving DecidableEq

/-- The gossip store slice touched by `processEvent`: the events table
keyed by event hash (event hashes embed their epoch), the per-creator
last-event index, the heads set, the occurred-transactions buffer, the
pack/emitter bookkeeping (modelled from the spec: packs and the
emitter are out of scope; represented as the list of processed event
hashes) and the set of epochs with an epoch store. -/
structure GStore where
  events : List (Nat × EventG)
  lastEvent : List ((Nat × Nat) × Nat)
  heads : List (Nat × Nat)
  occurredTxs : List Nat
  packs : List Nat
  epochStores : List Nat
deriving DecidableEq

/-- `Store.HasEvent`. -/
def GStore.hasEvent (s : GStore) (id : Nat) : Bool :=
  (alookup s.events id).isSome

/-- `Store.SetEvent`. -/
def GStore.setEvent (s : GStore) (e : EventG) : GStore :=
  { s with events := (e.hash, e) :: s.events }

/-- `Store.DeleteEvent` (the key is the event hash, which embeds the
epoch). -/
def GStore.deleteEvent (s : GStore) (id : Nat) : GStore :=
  { s with events := eraseKey s.events id }

/-- The consensus engine as `processEvent` sees it: the result of
`ProcessEvent` for an event (an error or success) and the epoch
reported by `GetEpoch` after that event was processed.  Modelled from
the spec: the engine is the external collaborator behind the
`Consensus` interface. -/
structure EngineM where
  processEventRes : EventG → Option String
  epochAfter : EventG → Nat

/-- The gossip service environment for `processEvent`: the engine may
be nil. -/
structure ServiceEnv where
  engine : Option EngineM

/-- `gossip.Service.processEvent` from
`src/gossip/consensus_callbacks.go`: returns `AlreadyConnected` before
any write when the event is already stored; otherwise stores the
event, runs the engine (deleting the event record and returning the
error when the engine fails), collects the not-confirmed transactions,
updates the last-event index and the heads, records the pack/emitter
notification, and on an epoch change swaps the epoch stores and clears
the occurred transactions.  The final `store.Commit` is modelled as
always succeeding.  Returns the error (or `none` on success) together
with the resulting store. -/
def processEvent (sv : ServiceEnv) (e : EventG) (s : GStore) :
    Option String × GStore :=
  if s.hasEvent e.hash then (some "event is connected already", s)
  else
    let oldEpoch := e.epoch
    let s1 := s.setEvent e
    let engineRes :=
      match sv.engine with
      | some eng => eng.processEventRes e
      | none => none
    match engineRes with
    | some err => (some err, s1.deleteEvent e.hash)
    | none =>
      let s2 := { s1 with occurredTxs := s1.occurredTxs ++ e.txs }
      let s3 := { s2 with lastEvent :=
        ((e.epoch, e.creator), e.hash) :: s2.lastEvent }
      let remainingHeads :=
        s3.heads.filter (fun h => !(h.1 = e.epoch && e.parents.contains h.2))
      let s4 := { s3 with heads := (e.epoch, e.hash) :: remainingHeads }
      let s5 := { s4 with packs := e.hash :: s4.packs }
      let newEpoch :=
        match sv.engine with
        | some eng => eng.epochAfter e
        | none => oldEpoch
      let s6 :=
        if newEpoch ≠ oldEpoch then
          let keptStores := s5.epochStores.filter (fun ep => ep != oldEpoch)
          { s5 with epochStores := newEpoch :: keptStores, occurredTxs := [] }
        else s5
      (none, s6)

/-- Modelled from the spec, section 4.I: the gas power available to an
event when the real elapsed time since its parent is `deltaT`
(nanoseconds): `min(priorLeft + perHour * deltaT / 1h, max)`.  Used to
contrast the source computation with the specified one. -/
def specGasPowerAvailable (perHour maxGas priorLeft deltaT : Nat) : Nat :=
  min (priorLeft + perHour * deltaT / timeHour) maxGas

/-- A sample genesis-frame event (no parents). -/
def eventA : EventHeaderData :=
  { hash := 1, epoch := 3, seq := 1, creator := 1, lamport := 1,
    medianTime := 50, parents := [], selfParent := none,
    gasPowerUsed := 0, gasPowerLeft := 0 }

/-- A sample second event of the same creator, with `eventA` as its
self-parent. -/
def eventB : EventHeaderData :=
  { hash := 2, epoch := 3, seq := 2, creator := 1, lamport := 2,
    medianTime := 60, parents := [1], selfParent := some 1,
    gasPowerUsed := 0, gasPowerLeft := 0 }

/-- The gas-power tuning of the end-to-end scenario in the spec,
section 8: `TotalPerH = 360000`, `MaxGasPowerPeriod = 10 s`,
`StartupPeriod = 5 s`, `MinStartupGasPower = 100`. -/
def baseGas : GasRules :=
  { totalPerH := 360000, maxGasPowerPeriod := 10000000000,
    startupPeriod := 5000000000, minStartupGasPower := 100 }

/-- A sample poset state: two validators with stakes 250 and 750
(total 1000), epoch 3, epoch length 5, last decided frame 5, and
`eventA` as the only stored header. -/
def basePoset : Poset :=
  { validators := [(1, 250), (2, 750)]
    nextValidators := [(1, 250), (2, 750)]
    epochN := 3
    prevEpoch := { time := 0, epoch := 2, lastAtropos := 0, stateHash := 0,
                   lastHeaders := [] }
    lastDecidedFrame := 5
    dag := { epochLen := 5, maxValidatorEventsInBlock := 10, gasPower := baseGas }
    checkpoint := { lastBlockN := 7, lastAtropos := 9, stateHash := 11 }
    store := { confirmedOn := [], epochDbEpoch := 3 }
    input := [(1, eventA)]
    election := { validators := [(1, 250), (2, 750)], frame := 6 }
    vecClock := { validators := [(1, 250), (2, 750)], epochDb := 3 }
    frameTime := fun f => 100 + f
    applyBlock := none }

/-- The sample poset with the atropos `eventA` already confirmed (its
`ConfirmedOn` record set to 4). -/
def confirmedPoset : Poset :=
  { basePoset with store := { confirmedOn := [(1, 4)], epochDbEpoch := 3 } }

/-- The sample poset with the zero-stake creator 1 whose stored
self-parent header still holds 777 gas power. -/
def zeroStakePoset : Poset :=
  { basePoset with
    validators := [(1, 0), (2, 750)]
    input := [(1, { eventA with gasPowerLeft := 777 })]
    prevEpoch := { time := 0, epoch := 2, lastAtropos := 0, stateHash := 0,
                   lastHeaders := [(1, { eventA with gasPowerLeft := 888 })] } }

/-- C1: the claim says `confirmBlockEvents(d, A)` stamps every
unconfirmed ancestor of `A` and returns exactly the newly stamped
events as the block event list.  The source instead hits
`Log.Crit("confirmBlockEvents NOT_IMPLEMENTED yet")` on the first
unconfirmed event it walks (aborting the process), and never appends
to `blockEvents`: at frame 5 with the unconfirmed atropos `eventA` the
walk aborts instead of returning `[eventA]`. -/
theorem confirmBlockEvents_not_implemented :
    basePoset.confirmBlockEvents 5 1 =
      .error "confirmBlockEvents NOT_IMPLEMENTED yet" := by
  rfl

/-- C3: the claim says the gas allocated since the parent is
`perHour(v) * deltaT / 1h` for the real elapsed time `deltaT`.  The
source (a `TODO` in `CalcGasPower`) allocates for a constant duration
of 1 nanosecond instead: for `eventB` (self-parent gas power left 0,
`perHour = 90000`, cap 250) the source computes 0 available gas power,
while the specified computation at `deltaT` of one hour yields
`min(0 + 90000, 250) = 250`. -/
theorem calcGasPower_ignores_elapsed_time :
    basePoset.CalcGasPower eventB = 0 ∧
      specGasPowerAvailable 90000 250 0 timeHour = 250 := by
  constructor
  · rfl
  · rfl

/-- C4: `calcValidatorGasPowerPerH` of a validator with nonzero stake
computes `perHour = TotalPerH * stake / TotalStake` (round-down),
`maxGasPower = perHour * MaxGasPowerPeriod / 1h` (round-down) and
`startup = max(perHour * StartupPeriod / 1h, MinStartupGasPower)`,
provided each value fits in a `uint64` (the source narrows the
unbounded intermediate results to `uint64`). -/
theorem calcValidatorGasPowerPerH_formula (p : Poset) (v : Nat)
    (hstake : p.validators.get v ≠ 0)
    (hfit1 : p.dag.gasPower.totalPerH * p.validators.get v /
      p.validators.totalStake < 18446744073709551616)
    (hfit2 : p.dag.gasPower.totalPerH * p.validators.get v /
      p.validators.totalStake * p.dag.gasPower.maxGasPowerPeriod / timeHour <
      18446744073709551616)
    (hfit3 : p.dag.gasPower.totalPerH * p.validators.get v /
      p.validators.totalStake * p.dag.gasPower.startupPeriod / timeHour <
      18446744073709551616) :
    p.calcValidatorGasPowerPerH v =
      (p.dag.gasPower.totalPerH * p.validators.get v / p.validators.totalStake,
       p.dag.gasPower.totalPerH * p.validators.get v /
         p.validators.totalStake * p.dag.gasPower.maxGasPowerPeriod / timeHour,
       max (p.dag.gasPower.totalPerH * p.validators.get v /
         p.validators.totalStake * p.dag.gasPower.startupPeriod / timeHour)
         p.dag.gasPower.minStartupGasPower) := by
  simp only [Poset.calcValidatorGasPowerPerH, u64, if_neg hstake]
  rw [Nat.mod_eq_of_lt hfit1, Nat.mod_eq_of_lt hfit2, Nat.mod_eq_of_lt hfit3]
  rcases Nat.lt_or_ge (p.dag.gasPower.totalPerH * p.validators.get v /
      p.validators.totalStake * p.dag.gasPower.startupPeriod / timeHour)
      p.dag.gasPower.minStartupGasPower with hlt | hge
  · rw [if_pos hlt, Nat.max_eq_right (Nat.le_of_lt hlt)]
  · rw [if_neg (Nat.not_lt.2 hge), Nat.max_eq_left hge]

/-- C4 witness: with `TotalPerH = 360000`, `TotalStake = 1000`, stake
250, `MaxGasPowerPeriod = 10 s`, `StartupPeriod = 5 s`,
`MinStartupGasPower = 100`, the regulator yields `perHour = 90000`,
`max = 250`, `startup = 125`. -/
theorem calcValidatorGasPowerPerH_formula_witness :
    basePoset.calcValidatorGasPowerPerH 1 = (90000, 250, 125) := by
  rw [calcValidatorGasPowerPerH_formula basePoset 1 (by decide) (by decide)
    (by decide) (by decide)]
  decide

/-- C9: for every event whose creator has zero stake in the current
validator table, `CalcGasPower` returns 0, regardless of the
self-parent gas power or the previous-epoch last headers: the per-hour
allocation and the cap are both 0, and the available gas power is
clamped to the cap. -/
theorem calcGasPower_zero_stake (p : Poset) (e : EventHeaderData)
    (h : p.validators.get e.creator = 0) :
    p.CalcGasPower e = 0 := by
  have hcalc : p.calcValidatorGasPowerPerH e.creator = (0, 0, 0) := by
    simp [Poset.calcValidatorGasPowerPerH, h]
  simp only [Poset.CalcGasPower, hcalc]
  simp only [u64, Nat.one_mul, Nat.zero_div, Nat.zero_mod, Nat.zero_add]
  split
  · rfl
  · omega

/-- C9 witness: creator 1 has zero stake while its self-parent header
holds 777 gas power and the previous-epoch last header 888; the
available gas power is still 0. -/
theorem calcGasPower_zero_stake_witness :
    zeroStakePoset.CalcGasPower eventB = 0 :=
  calcGasPower_zero_stake zeroStakePoset eventB (by decide)

/-- C2: `tryToSealEpoch` seals exactly when `LastDecidedFrame` is at
least `EpochLen`, and sealing snapshots `PrevEpoch` (consensus time of
the last decided frame, old epoch number, the atropos, the checkpoint
state hash, the last headers), installs `NextValidators.Top()` as the
validator set, increments `EpochN`, resets `LastDecidedFrame` to 0,
recreates the epoch-scoped database for the new epoch, and resets the
vector clock and the election (to the first frame). -/
theorem tryToSealEpoch_props (p : Poset) (atropos : Nat)
    (lastHeaders : HeadersByCreator) :
    ((p.tryToSealEpoch atropos lastHeaders).2 = true ↔
      p.dag.epochLen ≤ p.lastDecidedFrame)
    ∧ (p.dag.epochLen ≤ p.lastDecidedFrame →
        ((p.tryToSealEpoch atropos lastHeaders).1.prevEpoch =
          { time := p.frameTime p.lastDecidedFrame, epoch := p.epochN,
            lastAtropos := atropos, stateHash := p.checkpoint.stateHash,
            lastHeaders := lastHeaders }
        ∧ (p.tryToSealEpoch atropos lastHeaders).1.validators =
            p.nextValidators.top
        ∧ (p.tryToSealEpoch atropos lastHeaders).1.epochN = p.epochN + 1
        ∧ (p.tryToSealEpoch atropos lastHeaders).1.lastDecidedFrame = 0
        ∧ (p.tryToSealEpoch atropos lastHeaders).1.store =
            { confirmedOn := [], epochDbEpoch := p.epochN + 1 }
        ∧ (p.tryToSealEpoch atropos lastHeaders).1.vecClock =
            { validators := p.nextValidators.top, epochDb := p.epochN + 1 }
        ∧ (p.tryToSealEpoch atropos lastHeaders).1.election =
            { validators := p.nextValidators.top, frame := 1 })) := by
  constructor
  · constructor
    · intro h
      by_contra hnot
      have hb : p.isEpochSealed = false := by
        simp [Poset.isEpochSealed, hnot]
      simp [Poset.tryToSealEpoch, hb] at h
    · intro h
      have hb : p.isEpochSealed = true := by
        simp [Poset.isEpochSealed, h]
      simp [Poset.tryToSealEpoch, hb]
  · intro h
    have hb : p.isEpochSealed = true := by
      simp [Poset.isEpochSealed, h]
    simp [Poset.tryToSealEpoch, hb, Poset.onNewEpoch, Validators.copy]

/-- C2 witness: the sample poset (epoch length 5, last decided frame
5, epoch 3) seals, snapshots `PrevEpoch.Epoch = 3` and moves to epoch
4 with `LastDecidedFrame = 0`. -/
theorem tryToSealEpoch_props_witness :
    ((basePoset.tryToSealEpoch 9 []).2 = true)
    ∧ (basePoset.tryToSealEpoch 9 []).1.epochN = 4
    ∧ (basePoset.tryToSealEpoch 9 []).1.prevEpoch.epoch = 3
    ∧ (basePoset.tryToSealEpoch 9 []).1.lastDecidedFrame = 0 := by
  have h := tryToSealEpoch_props basePoset 9 []
  have hseal : basePoset.dag.epochLen ≤ basePoset.lastDecidedFrame := by decide
  have h2 := h.2 hseal
  refine ⟨h.1.mpr hseal, h2.2.2.1, ?_, h2.2.2.2.1⟩
  rw [h2.1]
  rfl

/-- Inserting into a sorted event list grows the length by one. -/
theorem length_insertSorted (e : EventHeaderData) (l : List EventHeaderData) :
    (insertSorted e l).length = l.length + 1 := by
  induction l with
  | nil => rfl
  | cons x xs ih =>
    unfold insertSorted
    split
    · simp
    · simp only [List.length_cons, ih]

/-- The insertion sort of the fare ordering preserves the length. -/
theorem length_sortEvents (l : List EventHeaderData) :
    (sortEvents l).length = l.length := by
  induction l with
  | nil => rfl
  | cons x xs ih =>
    unfold sortEvents
    rw [length_insertSorted, ih, List.length_cons]

/-- C8: `onFrameDecided` aborts with the fatal consistency error when
the confirmed block events computed for the decided frame are empty
(the source logs a `Crit` with the no-events message, which ends the
process), and whenever it does produce a block, the ordered event list
of the block is non-empty. -/
theorem onFrameDecided_no_empty_blocks (p : Poset) (frame atropos : Nat) :
    (∀ st hs, p.confirmBlockEvents frame atropos = .ok (st, [], hs) →
      p.onFrameDecided frame atropos = .error "Frame is decided with no events")
    ∧ (∀ q ordered hs,
        p.onFrameDecided frame atropos = .ok (q, ordered, hs) →
        ordered ≠ []) := by
  constructor
  · intro st hs h
    have h2 : Poset.confirmBlockEvents
        { p with election := { validators := p.validators, frame := frame + 1 },
                 lastDecidedFrame := frame } frame atropos = .ok (st, [], hs) := h
    simp [Poset.onFrameDecided, h2]
  · intro q ordered hs h
    simp only [Poset.onFrameDecided] at h
    cases hc : Poset.confirmBlockEvents
        { p with election := { validators := p.validators, frame := frame + 1 },
                 lastDecidedFrame := frame } frame atropos with
    | error e => rw [hc] at h; exact absurd h (by simp)
    | ok r =>
      rw [hc] at h
      obtain ⟨st, bev, lhs⟩ := r
      dsimp at h
      by_cases hb : bev.length = 0
      · rw [if_pos hb] at h
        exact absurd h (by simp)
      · rw [if_neg hb] at h
        have h3 := Except.ok.inj h
        have h4 : sortEvents bev = ordered := congrArg (fun t => t.2.1) h3
        intro hnil
        exact hb (by rw [← length_sortEvents bev, h4, hnil]; rfl)

/-- C8 witness: on the sample poset whose atropos is already
confirmed, `confirmBlockEvents` yields the empty event list and
`onFrameDecided` aborts with the consistency error. -/
theorem onFrameDecided_no_empty_blocks_witness :
    confirmedPoset.onFrameDecided 5 1 =
      .error "Frame is decided with no events" :=
  (onFrameDecided_no_empty_blocks confirmedPoset 5 1).1
    confirmedPoset.store [] rfl

/-- Erasing an absent key from an association list is the identity. -/
theorem eraseKey_of_alookup_none {α : Type} (l : List (Nat × α)) (k : Nat)
    (h : alookup l k = none) : eraseKey l k = l := by
  induction l with
  | nil => rfl
  | cons q rest ih =>
    obtain ⟨k1, v1⟩ := q
    rw [alookup] at h
    by_cases hk : k1 = k
    · rw [if_pos hk] at h
      exact absurd h (by simp)
    · rw [if_neg hk] at h
      unfold eraseKey
      rw [List.filter_cons, if_pos (by simp [hk])]
      have h4 : List.filter (fun p => p.1 != k) rest = rest := ih h
      rw [h4]

/-- Erasing a just-inserted key restores an association list in which
the key was absent. -/
theorem eraseKey_cons_self {α : Type} (l : List (Nat × α)) (k : Nat) (v : α)
    (h : alookup l k = none) : eraseKey ((k, v) :: l) k = l := by
  unfold eraseKey
  rw [List.filter_cons, if_neg (by simp)]
  exact eraseKey_of_alookup_none l k h

/-- C7: when the consensus engine rejects an event that was not in the
store, `processEvent` stores the event, receives the engine error,
deletes the event record again and returns that error: the store comes
back byte-identical, so the failed insert leaves no event record. -/
theorem processEvent_rolls_back (sv : ServiceEnv) (eng : EngineM)
    (e : EventG) (s : GStore) (err : String)
    (h1 : sv.engine = some eng)
    (h2 : eng.processEventRes e = some err)
    (h3 : s.hasEvent e.hash = false) :
    processEvent sv e s = (some err, s) := by
  have hnone : alookup s.events e.hash = none := by
    cases hl : alookup s.events e.hash with
    | none => rfl
    | some v => rw [GStore.hasEvent, hl] at h3; simp at h3
  have herase : eraseKey ((e.hash, e) :: s.events) e.hash = s.events :=
    eraseKey_cons_self s.events e.hash e hnone
  simp [processEvent, h3, h1, h2, GStore.setEvent, GStore.deleteEvent, herase]

/-- A sample gossip event. -/
def ev0 : EventG :=
  { hash := 21, epoch := 3, creator := 1, parents := [11, 12], txs := [5] }

/-- The empty gossip store. -/
def emptyGStore : GStore :=
  { events := [], lastEvent := [], heads := [], occurredTxs := [],
    packs := [], epochStores := [] }

/-- An engine that rejects every event. -/
def rejectingEngine : EngineM :=
  { processEventRes := fun _ => some "engine failed",
    epochAfter := fun e => e.epoch }

/-- C7 witness: a rejecting engine makes `processEvent` return the
engine error and hand back the empty store unchanged. -/
theorem processEvent_rolls_back_witness :
    processEvent ⟨some rejectingEngine⟩ ev0 emptyGStore =
      (some "engine failed", emptyGStore) :=
  processEvent_rolls_back ⟨some rejectingEngine⟩ rejectingEngine ev0
    emptyGStore "engine failed" rfl rfl rfl

/-- A successful `processEvent` leaves the event at the head of the
events table; no later step of the call touches that table. -/
theorem processEvent_ok_events (sv : ServiceEnv) (e : EventG) (s s2 : GStore)
    (h : processEvent sv e s = (none, s2)) :
    s2.events = (e.hash, e) :: s.events := by
  unfold processEvent at h
  by_cases hdup : s.hasEvent e.hash
  · rw [if_pos hdup] at h
    exact absurd h (by simp)
  · rw [if_neg hdup] at h
    dsimp only at h
    cases heng : (match sv.engine with
        | some eng => eng.processEventRes e
        | none => none : Option String) with
    | some err =>
      rw [heng] at h
      exact absurd h (by simp)
    | none =>
      rw [heng] at h
      dsimp only at h
      have h2 := (Prod.mk.injEq _ _ _ _ ▸ h).2
      rw [← h2]
      split
      · rfl
      · rfl

/-- C6: an event already stored is detected before any write: a second
`processEvent` call after a successful first one returns
`AlreadyConnected` and returns the store unchanged. -/
theorem processEvent_idempotent (sv : ServiceEnv) (e : EventG) (s s2 : GStore)
    (h : processEvent sv e s = (none, s2)) :
    processEvent sv e s2 = (some "event is connected already", s2) := by
  have hev : s2.events = (e.hash, e) :: s.events :=
    processEvent_ok_events sv e s s2 h
  have hhas : s2.hasEvent e.hash = true := by
    rw [GStore.hasEvent, hev, alookup]
    simp
  simp [processEvent, hhas]

/-- C6 witness: feeding the sample event to an engine-less service
twice: the first call succeeds, the second returns `AlreadyConnected`
with the store unchanged. -/
theorem processEvent_idempotent_witness :
    processEvent ⟨none⟩ ev0 ((processEvent ⟨none⟩ ev0 emptyGStore).2) =
      (some "event is connected already",
        (processEvent ⟨none⟩ ev0 emptyGStore).2) :=
  processEvent_idempotent ⟨none⟩ ev0 emptyGStore
    ((processEvent ⟨none⟩ ev0 emptyGStore).2) rfl

/-- Total gas power used by a list of events (read from the store;
absent defaults to 0). -/
def gasSum (store : List (Nat × Nat)) (l : List Nat) : Nat :=
  (l.map (fun id => (alookup store id).getD 0)).sum

/-- Unfolding `gasSum` on a cons cell. -/
theorem gasSum_cons (store : List (Nat × Nat)) (id : Nat) (l : List Nat) :
    gasSum store (id :: l) = (alookup store id).getD 0 + gasSum store l := by
  simp [gasSum]

/-- Reversal preserves the gas sum. -/
theorem gasSum_reverse (store : List (Nat × Nat)) (l : List Nat) :
    gasSum store l.reverse = gasSum store l := by
  simp [gasSum, List.sum_reverse]

/-- The `uint64` narrowing of a value that fits is the identity. -/
theorem u64_eq_of_lt {n : Nat} (h : n < 18446744073709551616) : u64 n = n :=
  Nat.mod_eq_of_lt h

/-- Narrowing an already-narrowed left summand does not change a
narrowed sum (wrapped `uint64` addition is a modular sum). -/
theorem u64_add_left (a b : Nat) : u64 (u64 a + b) = u64 (a + b) :=
  Nat.mod_add_mod a _ b

/-- Behaviour of the `spillBlockEvents` loop on success: it keeps `k`
events of the tail, every kept running sum (wrapped, accumulated from
the tail) stays within the limit, and when it stopped early the next
running sum exceeded the limit. -/
theorem spillLoop_ok_spec (store : List (Nat × Nat)) (limit : Nat) :
    ∀ (rev : List Nat) (sum k : Nat),
      spillLoop store limit sum rev = .ok k →
      k ≤ rev.length
      ∧ (∀ j, 1 ≤ j → j ≤ k → u64 (sum + gasSum store (rev.take j)) ≤ limit)
      ∧ (k < rev.length → limit < u64 (sum + gasSum store (rev.take (k + 1)))) := by
  intro rev
  induction rev with
  | nil =>
    intro sum k h
    rw [spillLoop] at h
    have hk : (0 : Nat) = k := by injection h
    subst hk
    refine ⟨Nat.le_refl 0, ?_, ?_⟩
    · intro j hj1 hjk
      omega
    · intro hc
      exact absurd hc (by simp)
  | cons id rest ih =>
    intro sum k h
    rw [spillLoop] at h
    cases hlook : alookup store id with
    | none =>
      rw [hlook] at h
      exact absurd h (by simp)
    | some g =>
      rw [hlook] at h
      dsimp only at h
      by_cases hcmp : limit < u64 (sum + g)
      · rw [if_pos hcmp] at h
        have hk : (0 : Nat) = k := by injection h
        subst hk
        refine ⟨by simp, ?_, ?_⟩
        · intro j hj1 hjk
          omega
        · intro _
          have hg1 : gasSum store ((id :: rest).take (0 + 1)) = g := by
            simp [gasSum, hlook]
          rw [hg1]
          exact hcmp
      · rw [if_neg hcmp] at h
        cases hrec : spillLoop store limit (u64 (sum + g)) rest with
        | error e2 =>
          rw [hrec] at h
          exact Except.noConfusion h
        | ok k0 =>
          rw [hrec] at h
          have h9 : Except.ok (k0 + 1) = Except.ok k := h
          have hk : k0 + 1 = k := by injection h9
          subst hk
          obtain ⟨h1, h2, h3⟩ := ih (u64 (sum + g)) k0 hrec
          refine ⟨by simpa using Nat.succ_le_succ h1, ?_, ?_⟩
          · intro j hj1 hjk
            cases j with
            | zero => omega
            | succ j0 =>
              rw [List.take_succ_cons, gasSum_cons, hlook]
              cases Nat.eq_zero_or_pos j0 with
              | inl hj0 =>
                subst hj0
                have : u64 (sum + g) ≤ limit := Nat.le_of_not_lt hcmp
                simpa [gasSum] using this
              | inr hj0 =>
                have h5 := h2 j0 hj0 (by omega)
                rw [u64_add_left] at h5
                have harr : u64 (sum + g + gasSum store (rest.take j0)) =
                    u64 (sum + (Option.getD (some g) 0 + gasSum store (rest.take j0))) := by
                  simp [Nat.add_assoc]
                rw [← harr]
                exact h5
          · intro hlt
            have hk0 : k0 < rest.length := by
              simpa using Nat.lt_of_succ_lt_succ hlt
            have h4 := h3 hk0
            rw [u64_add_left] at h4
            rw [List.take_succ_cons, gasSum_cons, hlook]
            have harr : u64 (sum + g + gasSum store (rest.take (k0 + 1))) =
                u64 (sum + (Option.getD (some g) 0 + gasSum store (rest.take (k0 + 1)))) := by
              simp [Nat.add_assoc]
            rw [← harr]
            exact h4

/-- C5 (as stated) fails: the claim says events are removed from the
tail of the block, retaining the head.  With events 1 and 2 carrying
10 gas each and a hard limit of 15, the source keeps the tail `[2]`
(the head event 1 is spilled), not the head `[1]`. -/
theorem spillBlockEvents_not_head_retaining :
    spillBlockEvents [(1, 10), (2, 10)] 15 [1, 2] = .ok [2]
    ∧ (Except.ok [2] : Except String (List Nat)) ≠ .ok [1] := by
  refine ⟨rfl, ?_⟩
  intro hcon
  have h2 := Except.ok.inj hcon
  exact absurd h2 (by decide)

/-- C5 (amended): `spillBlockEvents` removes events from the head (the
beginning) of the ordered event list of the block, retaining a contiguous
tail whose wrapped gas sum fits within the limit; when anything was
removed, the tail extended by one more event would exceed the limit. -/
theorem spillBlockEvents_drops_head (store : List (Nat × Nat)) (limit : Nat)
    (events kept : List Nat)
    (h : spillBlockEvents store limit events = .ok kept) :
    (∃ dropped, dropped ++ kept = events)
    ∧ u64 (gasSum store kept) ≤ limit
    ∧ (kept ≠ events →
        limit < u64 (gasSum store
          (events.drop (events.length - (kept.length + 1))))) := by
  by_cases hne : events.length = 0
  · have hevnil : events = [] := List.length_eq_zero.mp hne
    subst hevnil
    rw [spillBlockEvents] at h
    have hk : ([] : List Nat) = kept := by injection h
    subst hk
    refine ⟨⟨[], rfl⟩, by simp [gasSum, u64], ?_⟩
    intro hkne
    exact absurd rfl hkne
  · rw [spillBlockEvents, if_neg hne] at h
    cases hrec : spillLoop store limit 0 events.reverse with
    | error e =>
      rw [hrec] at h
      exact Except.noConfusion h
    | ok k =>
      rw [hrec] at h
      have h9 : Except.ok (events.drop (events.length - k)) = Except.ok kept := h
      have hkept : events.drop (events.length - k) = kept := by injection h9
      obtain ⟨h1, h2, h3⟩ := spillLoop_ok_spec store limit events.reverse 0 k hrec
      rw [List.length_reverse] at h1 h3
      have hklen : kept.length = k := by
        rw [← hkept, List.length_drop]
        omega
      refine ⟨⟨events.take (events.length - k), by
        rw [← hkept]; exact List.take_append_drop _ _⟩, ?_, ?_⟩
      · cases Nat.eq_zero_or_pos k with
        | inl hk0 =>
          subst hk0
          have : kept = [] := by
            rw [← hkept]
            simp
          rw [this]
          simp [gasSum, u64]
        | inr hk1 =>
          have h5 := h2 k hk1 (Nat.le_refl k)
          rw [List.take_reverse, gasSum_reverse] at h5
          rw [← hkept]
          simpa using h5
      · intro hkne
        have hkn : k < events.length := by
          rcases Nat.lt_or_ge k events.length with hlt | hge
          · exact hlt
          · exfalso
            have hkeq : k = events.length := Nat.le_antisymm h1 hge
            apply hkne
            rw [← hkept, hkeq]
            simp
        have h6 := h3 hkn
        rw [List.take_reverse, gasSum_reverse] at h6
        rw [hklen]
        simpa using h6

/-- C5 witness: with events 1 and 2 carrying 10 gas each and limit 15,
the kept tail `[2]` is a contiguous tail of `[1, 2]`, fits within the
limit, and extending it by the head event would exceed the limit. -/
theorem spillBlockEvents_drops_head_witness :
    (∃ dropped, dropped ++ [2] = [1, 2])
    ∧ u64 (gasSum [(1, 10), (2, 10)] [2]) ≤ 15
    ∧ (([2] : List Nat) ≠ [1, 2] →
        15 < u64 (gasSum [(1, 10), (2, 10)]
          (([1, 2] : List Nat).drop
            (([1, 2] : List Nat).length - (([2] : List Nat).length + 1))))) :=
  spillBlockEvents_drops_head [(1, 10), (2, 10)] 15 [1, 2] [2] rfl

/-- C10 (as stated) fails: the claim says the result is non-empty and
contains the final event of the block even when that event alone exceeds
the limit.  With a single event of 20 gas and a hard limit of 15 the
source spills everything and returns the empty list. -/
theorem spillBlockEvents_empty_on_heavy_last :
    spillBlockEvents [(1, 20)] 15 [1] = .ok []
    ∧ (Except.ok ([] : List Nat) : Except String (List Nat)) ≠ .ok [1] := by
  refine ⟨rfl, ?_⟩
  intro hcon
  have h2 := Except.ok.inj hcon
  exact absurd h2 (by decide)

/-- C10 (amended): for a block with a non-empty event list whose final
event has gas `g` in the store, `spillBlockEvents` returns the empty
list when `g` alone exceeds the limit; and any successful result is
non-empty exactly when `g` fits, in which case it still ends with the
final event of the block. -/
theorem spillBlockEvents_last_event (store : List (Nat × Nat)) (limit : Nat)
    (events : List Nat) (lastId g : Nat)
    (hlast : events.getLast? = some lastId)
    (hg : alookup store lastId = some g)
    (hgfit : g < 18446744073709551616) :
    (limit < g → spillBlockEvents store limit events = .ok [])
    ∧ (∀ kept, spillBlockEvents store limit events = .ok kept →
        ((kept ≠ [] ↔ g ≤ limit)
        ∧ (kept ≠ [] → kept.getLast? = some lastId))) := by
  have hne : events ≠ [] := by
    intro h0
    rw [h0] at hlast
    exact absurd hlast (by simp)
  have hnlen : ¬ events.length = 0 := by
    simpa [List.length_eq_zero] using hne
  have hrev : events.reverse.head? = some lastId := by
    rw [List.head?_reverse]
    exact hlast
  obtain ⟨rtail, hrtl⟩ : ∃ t, events.reverse = lastId :: t := by
    cases hr : events.reverse with
    | nil =>
      rw [hr] at hrev
      exact absurd hrev (by simp)
    | cons a t =>
      rw [hr] at hrev
      have ha : a = lastId := by simpa using hrev
      exact ⟨t, by rw [ha]⟩
  have hu : u64 (0 + g) = g := by
    rw [Nat.zero_add]
    exact u64_eq_of_lt hgfit
  have hlen : events.length = rtail.length + 1 := by
    rw [← List.length_reverse, hrtl, List.length_cons]
  constructor
  · intro hlim
    rw [spillBlockEvents, if_neg hnlen, hrtl, spillLoop, hg]
    dsimp only
    rw [hu, if_pos hlim]
    simp [Except.map]
  · intro kept h
    rw [spillBlockEvents, if_neg hnlen, hrtl, spillLoop, hg] at h
    dsimp only at h
    rw [hu] at h
    by_cases hlim : limit < g
    · rw [if_pos hlim] at h
      have h9 : Except.ok (events.drop (events.length - 0)) = Except.ok kept := h
      have hkept : events.drop (events.length - 0) = kept := by injection h9
      have hknil : kept = [] := by
        rw [← hkept]
        simp
      constructor
      · constructor
        · intro hkne
          exact absurd hknil hkne
        · intro hglim
          exact absurd hglim (Nat.not_le.mpr hlim)
      · intro hkne
        exact absurd hknil hkne
    · rw [if_neg hlim] at h
      have hglim : g ≤ limit := Nat.le_of_not_lt hlim
      cases hrec : spillLoop store limit g rtail with
      | error e2 =>
        rw [hrec] at h
        exact Except.noConfusion h
      | ok k0 =>
        rw [hrec] at h
        have h9 : Except.ok (events.drop (events.length - (k0 + 1))) =
            Except.ok kept := h
        have hkept : events.drop (events.length - (k0 + 1)) = kept := by
          injection h9
        obtain ⟨h1, _, _⟩ := spillLoop_ok_spec store limit rtail g k0 hrec
        have hkne : kept ≠ [] := by
          rw [← hkept]
          intro hdrop
          have hlendrop := congrArg List.length hdrop
          rw [List.length_drop] at hlendrop
          simp at hlendrop
          omega
        refine ⟨⟨fun _ => hglim, fun _ => hkne⟩, fun _ => ?_⟩
        rw [← hkept, List.getLast?_drop, if_neg (by omega)]
        exact hlast

/-- C10 witness: events 1 and 2 (10 gas each), limit 15: the final
event 2 fits, so the kept tail is non-empty and still ends with
event 2. -/
theorem spillBlockEvents_last_event_witness :
    (15 < 10 → spillBlockEvents [(1, 10), (2, 10)] 15 [1, 2] = .ok [])
    ∧ (∀ kept, spillBlockEvents [(1, 10), (2, 10)] 15 [1, 2] = .ok kept →
        ((kept ≠ [] ↔ 10 ≤ 15)
        ∧ (kept ≠ [] → kept.getLast? = some 2))) :=
  spillBlockEvents_last_event [(1, 10), (2, 10)] 15 [1, 2] 2 10 rfl rfl
    (by decide)
